import Mathlib

/-!
Verification of the heatmap rendering pipeline of
`geo_activity_playground/heatmap.py`.

The development is a shallow embedding of `render_heatmap` and its helpers.
Machine floats are modelled by exact rationals; the two floating-point
operations whose results cannot be represented exactly (the cosine in the
slippy-map resolution formula and the FFT-based Gaussian smoothing) are taken
as parameters, so every theorem quantifies over their values.  Division by
zero, which in NumPy produces NaN, is modelled by `Option` (`none` = the
result is not a number).  The external collaborators (`latlon_to_xy`,
`get_tile`, the matplotlib colormap) are abstracted as function parameters,
following the contracts in the specification.
-/

set_option autoImplicit false
set_option maxRecDepth 100000

namespace Heatmap

/-! ### Python primitives -/

/-- Python `int(...)` applied to a float: truncation toward zero. -/
def pyInt (q : ℚ) : ℤ := if q < 0 then ⌈q⌉ else ⌊q⌋

/-- NumPy `np.round`: round half to even (banker's rounding). -/
def npRound (q : ℚ) : ℤ :=
  let f := ⌊q⌋
  if q - f < 1/2 then f
  else if (1:ℚ)/2 < q - f then f + 1
  else if f % 2 = 0 then f else f + 1

/-- Normalization of one bound of a Python slice `a:b` over an axis of length
`n` (step 1), as in `slice.indices`: a negative bound counts from the end and
is clamped below by `0`; a nonnegative bound is clamped above by `n`. -/
def pyBound (v : ℤ) (n : ℕ) : ℕ :=
  if v < 0 then (v + n).toNat else min v.toNat n

/-- Membership of index `k` in the Python slice `start:stop` over an axis of
length `n`. -/
def inSlice (start stop : ℤ) (n : ℕ) (k : ℕ) : Bool :=
  pyBound start n ≤ k && k < pyBound stop n

/-! ### Module constants (lines 36-42 of the source) -/

def MAX_TILE_COUNT : ℤ := 2000

/-- Maximum heatmap size in pixels; index 0 bounds the x axis and index 1 the
y axis in the auto-zoom test of the source. -/
def MAX_HEATMAP_SIZE : ℤ × ℤ := (2160, 3840)

def OSM_TILE_SIZE : ℤ := 256

def OSM_MAX_ZOOM : ℤ := 19

/-! ### Tile grid resolution (lines 86-114) -/

/-- Abstract coordinate-mapping collaborator.
Modelled from the spec: `latlon_to_xy` lives in
`geo_activity_playground.core.tiles`, which is not part of the rendering
source; per the spec it is an external utility with contract
`latlon_to_xy(lat, lon, zoom) -> (x_tile_frac, y_tile_frac)` whose outputs lie
in `[0, 2^zoom)`.  We abstract it as a pair of functions from latitude,
longitude (degrees, as rationals) and zoom to continuous tile coordinates. -/
structure TileXY where
  x : ℚ → ℚ → ℤ → ℚ
  y : ℚ → ℚ → ℤ → ℚ

/-- Resolved tile index rectangle. -/
structure TileRect where
  zoom : ℤ
  x_min : ℤ
  x_max : ℤ
  y_min : ℤ
  y_max : ℤ
deriving DecidableEq

/-- Tile rectangle covering the bounds at a given zoom (lines 92-93 / 99-100):
`x_tile_min, y_tile_max = map(int, latlon_to_xy(lat_min, lon_min, zoom))` and
`x_tile_max, y_tile_min = map(int, latlon_to_xy(lat_max, lon_max, zoom))`. -/
def tileRectAt (xy : TileXY) (lat_min lon_min lat_max lon_max : ℚ) (z : ℤ) :
    TileRect :=
  { zoom := z
    x_min := pyInt (xy.x lat_min lon_min z)
    y_max := pyInt (xy.y lat_min lon_min z)
    x_max := pyInt (xy.x lat_max lon_max z)
    y_min := pyInt (xy.y lat_max lon_max z) }

/-- The break condition of the auto-zoom loop (lines 102-104):
`(x_tile_max - x_tile_min + 1) * OSM_TILE_SIZE <= MAX_HEATMAP_SIZE[0]` and
`(y_tile_max - y_tile_min + 1) * OSM_TILE_SIZE <= MAX_HEATMAP_SIZE[1]`. -/
def fitsBudget (r : TileRect) : Bool :=
  (r.x_max - r.x_min + 1) * OSM_TILE_SIZE ≤ MAX_HEATMAP_SIZE.1 &&
    (r.y_max - r.y_min + 1) * OSM_TILE_SIZE ≤ MAX_HEATMAP_SIZE.2

/-- The `while True` auto-zoom loop (lines 98-107), made total by a fuel
parameter: `none` means the loop did not break within `fuel` iterations.  The
termination theorems show that fuel `20` (zooms `19` down to `0`) always
suffices under the coordinate-map contract. -/
def autoZoomLoop (xy : TileXY) (lat_min lon_min lat_max lon_max : ℚ) :
    ℕ → ℤ → Option TileRect
  | 0, _ => none
  | fuel + 1, z =>
    let r := tileRectAt xy lat_min lon_min lat_max lon_max z
    if fitsBudget r then some r
    else autoZoomLoop xy lat_min lon_min lat_max lon_max fuel (z - 1)

/-- Zoom selection and tile rectangle computation (lines 89-109).  The
requested-zoom path clamps `arg_zoom` with `min(arg_zoom, OSM_MAX_ZOOM)`; the
auto path starts the search at `OSM_MAX_ZOOM`. -/
def resolveTiles (xy : TileXY) (lat_min lon_min lat_max lon_max : ℚ)
    (arg_zoom : ℤ) : Option TileRect :=
  if arg_zoom > -1 then
    some (tileRectAt xy lat_min lon_min lat_max lon_max (min arg_zoom OSM_MAX_ZOOM))
  else
    autoZoomLoop xy lat_min lon_min lat_max lon_max 20 OSM_MAX_ZOOM

/-- Number of tiles of the rectangle (line 111). -/
def tileCount (r : TileRect) : ℤ :=
  (r.x_max - r.x_min + 1) * (r.y_max - r.y_min + 1)

/-! ### Density grid (lines 145-184)

Grids are total functions from row and column indices to rational values,
together with explicit dimensions where an operation needs them. -/

/-- List of all grid values in row-major order, the counterpart of NumPy's
flattened view of a `(hgt, wid)` array. -/
def valuesList (hgt wid : ℕ) (g : ℕ → ℕ → ℚ) : List ℚ :=
  (List.range hgt).flatMap fun r => (List.range wid).map (g r)

/-- Minimum of a list of rationals, as NumPy's `ndarray.min` (which errors on
an empty array; callers that can receive an empty array handle that case
separately). -/
def listMin : List ℚ → ℚ
  | [] => 0
  | x :: l => l.foldl min x

/-- Maximum of a list of rationals, as NumPy's `ndarray.max`. -/
def listMax : List ℚ → ℚ
  | [] => 0
  | x :: l => l.foldl max x

/-- One splat (lines 156-159): for a point with supertile coordinates
`(j, i)` (column, row), `data[i-1 : i+1, j-1 : j+1] += 1.0` with
`sigma_pixel = 1`, under Python/NumPy slicing semantics. -/
def splatPoint (hgt wid : ℕ) (g : ℕ → ℕ → ℚ) (p : ℤ × ℤ) : ℕ → ℕ → ℚ :=
  fun r c =>
    if inSlice (p.2 - 1) (p.2 + 1) hgt r && inSlice (p.1 - 1) (p.1 + 1) wid c
    then g r c + 1 else g r c

/-- The full splatting loop over the point list, starting from the
zero-initialized grid `data = np.zeros(supertile.shape[:2])` (line 147). -/
def splat (hgt wid : ℕ) (ps : List (ℤ × ℤ)) : ℕ → ℕ → ℚ :=
  ps.foldl (splatPoint hgt wid) fun _ _ => 0

/-- Supertile coordinates of a track point (lines 149-154):
`np.round((latlon_to_xy(lat, lon, zoom) - [x_tile_min, y_tile_min]) * 256)`,
returned in the `(x, y)` = `(column, row)` order of the source. -/
def pixOf (xy : TileXY) (rect : TileRect) (p : ℚ × ℚ) : ℤ × ℤ :=
  (npRound ((xy.x p.1 p.2 rect.zoom - rect.x_min) * (OSM_TILE_SIZE : ℚ)),
   npRound ((xy.y p.1 p.2 rect.zoom - rect.y_min) * (OSM_TILE_SIZE : ℚ)))

/-- Clipping `data[data > m] = m` (line 169). -/
def clipGrid (m : ℚ) (g : ℕ → ℕ → ℚ) : ℕ → ℕ → ℚ :=
  fun r c => if m < g r c then m else g r c

/-- Bin index of value `v` in NumPy's `np.histogram(·, bins = B)` over the
range `[lo, hi]`: `B` equal-width bins, each half-open on the right except the
last, which also contains `hi`.  With exact rational arithmetic a value `v` of
`[lo, hi]` falls in bin `⌊(v - lo) * B / (hi - lo)⌋`, clamped to `B - 1`. -/
def binIndex (lo hi : ℚ) (B : ℕ) (v : ℚ) : ℕ :=
  min (⌊(v - lo) * B / (hi - lo)⌋).toNat (B - 1)

/-- Count of values of `L` falling in bin `k`. -/
def histCount (L : List ℚ) (lo hi : ℚ) (B : ℕ) (k : ℕ) : ℕ :=
  (L.filter fun v => binIndex lo hi B v == k).length

/-- Entry `k` of `np.cumsum` of the histogram (line 174, before the division
by `data.size`). -/
def cumHist (L : List ℚ) (lo hi : ℚ) (B : ℕ) (k : ℕ) : ℕ :=
  ((List.range (k + 1)).map (histCount L lo hi B)).sum

/-- The histogram range chosen by `np.histogram`: `(min, max)` of the data,
widened to `(min - 0.5, max + 0.5)` when all values are equal. -/
def histRange (lo hi : ℚ) : ℚ × ℚ :=
  if lo = hi then (lo - 1/2, hi + 1/2) else (lo, hi)

/-- Histogram equalization (lines 172-178): build
`np.histogram(data, bins = int(m + 1))`, cumulate, normalize by `data.size`,
and remap each pixel value `v` to `m * data_hist[int(v)]`. -/
def equalizeGrid (hgt wid : ℕ) (m : ℤ) (g : ℕ → ℕ → ℚ) : ℕ → ℕ → ℚ :=
  let L := valuesList hgt wid g
  let rg := histRange (listMin L) (listMax L)
  let B := (m + 1).toNat
  fun r c =>
    (m : ℚ) * (cumHist L rg.1 rg.2 B (pyInt (g r c)).toNat : ℚ) /
      ((hgt : ℚ) * (wid : ℚ))

/-- Dynamic-range compression (lines 161-178).  `cosMeanLat` stands for the
value of `np.cos(np.radians(np.mean(lat_lon_data[:, 0])))`, a floating-point
cosine abstracted as a rational parameter; the rest of the resolution formula
`res_pixel = 156543.03 * cos(radians(mean_lat)) / 2**zoom` is explicit. -/
def compressStage (cosMeanLat : ℚ) (zoom : ℤ) (num_activities : ℕ)
    (hgt wid : ℕ) (g : ℕ → ℕ → ℚ) : ℕ → ℕ → ℚ :=
  let res_pixel := 156543.03 * cosMeanLat / (2:ℚ) ^ zoom
  let m := npRound (1/5 * res_pixel * (num_activities : ℚ))
  equalizeGrid hgt wid m (clipGrid (m : ℚ) g)

/-- Normalization `data = (data - data.min()) / (data.max() - data.min())`
(line 184).  When `max = min` the NumPy expression divides zero by zero and
fills the grid with NaN; that outcome is modelled as `none`. -/
def normalizeGrid (hgt wid : ℕ) (g : ℕ → ℕ → ℚ) : Option (ℕ → ℕ → ℚ) :=
  let lo := listMin (valuesList hgt wid g)
  let hi := listMax (valuesList hgt wid g)
  if hi - lo = 0 then none
  else some fun r c => (g r c - lo) / (hi - lo)

/-! ### Mosaic assembly and compositing (lines 116-142, 187-197) -/

/-- An RGBA color with rational channels. -/
structure RGBA where
  r : ℚ
  g : ℚ
  b : ℚ
  a : ℚ
deriving DecidableEq

/-- The three color channels used by the compositing loop `for c in range(3)`. -/
def chan3 (p : RGBA) : Fin 3 → ℚ
  | 0 => p.r
  | 1 => p.g
  | 2 => p.b

/-- All four channels of a color lie in `[0, 1]`. -/
def rgbaIn01 (p : RGBA) : Prop :=
  (0 ≤ p.r ∧ p.r ≤ 1) ∧ (0 ≤ p.g ∧ p.g ≤ 1) ∧
    (0 ≤ p.b ∧ p.b ≤ 1) ∧ (0 ≤ p.a ∧ p.a ≤ 1)

/-- Abstract tile source: `np.array(get_tile(zoom, x, y)) / 255` restricted to
its first three channels, i.e. the rational pixel values the mosaic loop
reads.  Arguments: zoom, tile x, tile y, pixel row, pixel column, channel. -/
abbrev TileSource := ℤ → ℤ → ℤ → ℕ → ℕ → Fin 3 → ℚ

/-- Mosaic assembly (lines 116-142): paste each 256x256 tile at its grid
offset, convert to luminance with weights `[0.2126, 0.7152, 0.0722]`, invert,
and replicate to three equal channels. -/
def assembleMosaic (ts : TileSource) (rect : TileRect) : ℕ → ℕ → Fin 3 → ℚ :=
  fun i j _ =>
    let px := ts rect.zoom (rect.x_min + (j / 256 : ℕ)) (rect.y_min + (i / 256 : ℕ))
      (i % 256) (j % 256)
    1 - (0.2126 * px 0 + 0.7152 * px 1 + 0.0722 * px 2)

/-- One entry of the background-removal mask (line 190):
`data_color[data_color == cmap(0.0)] = 0.0` compares every individual channel
entry with the corresponding channel of `cmap(0.0)` (NumPy broadcasting) and
zeroes the entries that are equal. -/
def zeroIfEq (v bg : ℚ) : ℚ := if v = bg then 0 else v

/-- Background removal applied to one pixel's color: each of the four channels
is zeroed exactly when it equals the corresponding channel of `bg`. -/
def removeBackground (bg col : RGBA) : RGBA :=
  ⟨zeroIfEq col.r bg.r, zeroIfEq col.g bg.g, zeroIfEq col.b bg.b,
    zeroIfEq col.a bg.a⟩

/-- The per-channel blend of lines 192-195:
`supertile[:, :, c] = (1.0 - data_color[:, :, c]) * supertile[:, :, c] + data_color[:, :, c]`. -/
def blendChannel (colc mosc : ℚ) : ℚ := (1 - colc) * mosc + colc

/-- The compositor (lines 187-195): map density through the colormap, remove
the background color channel-wise, and blend onto the mosaic. -/
def compositeImage (cmap : ℚ → RGBA) (density : ℕ → ℕ → ℚ)
    (mosaic : ℕ → ℕ → Fin 3 → ℚ) : ℕ → ℕ → Fin 3 → ℚ :=
  fun r c ch =>
    blendChannel (chan3 (removeBackground (cmap 0) (cmap (density r c))) ch)
      (mosaic r c ch)

/-- Modelled from matplotlib: a colormap applied to NaN returns its "bad"
color `(0, 0, 0, 0)`.  This is what `cmap(data)` yields when the normalize
step divided zero by zero. -/
def matplotlibBad : RGBA := ⟨0, 0, 0, 0⟩

/-! ### The full render pipeline (lines 82-199) -/

/-- Bounds of the point set as computed by lines 86-87. -/
structure PointBounds where
  lat_min : ℚ
  lon_min : ℚ
  lat_max : ℚ
  lon_max : ℚ
deriving DecidableEq

/-- Per-axis minima and maxima of the point list
(`np.min(lat_lon_data, axis=0)` / `np.max(lat_lon_data, axis=0)`, lines
86-87).  NumPy raises `ValueError` on an empty array, modelled as `none`. -/
def boundsOfPoints : List (ℚ × ℚ) → Option PointBounds
  | [] => none
  | p :: ps =>
    some (ps.foldl
      (fun b q =>
        ⟨min b.lat_min q.1, min b.lon_min q.2, max b.lat_max q.1, max b.lon_max q.2⟩)
      ⟨p.1, p.2, p.1, p.2⟩)

/-- The render entry point `render_heatmap(lat_lon_data, num_activities,
arg_zoom)`.  External collaborators and floating-point primitives appear as
parameters: `xy` is `latlon_to_xy`, `cmap` the matplotlib colormap, `ts` the
tile source, `gaussian_smooth` the FFT-based `gaussian_filter` of lines 45-71
(a floating-point Fourier transform, abstracted as a grid transformer), and
`cosMeanLat` the cosine of the mean latitude in radians.  Fatal `exit(...)`
and uncaught `ValueError` are modelled as `Except.error`. -/
def render_heatmap (xy : TileXY) (cmap : ℚ → RGBA) (ts : TileSource)
    (gaussian_smooth : (ℕ → ℕ → ℚ) → (ℕ → ℕ → ℚ))
    (lat_lon_data : List (ℚ × ℚ)) (cosMeanLat : ℚ) (num_activities : ℕ)
    (arg_zoom : ℤ) : Except String (ℕ → ℕ → Fin 3 → ℚ) :=
  match boundsOfPoints lat_lon_data with
  | none => .error "ValueError: zero-size array to reduction operation minimum"
  | some b =>
    match resolveTiles xy b.lat_min b.lon_min b.lat_max b.lon_max arg_zoom with
    | none => .error "auto zoom search did not stop"
    | some rect =>
      if MAX_TILE_COUNT < tileCount rect then
        .error "ERROR zoom value too high, too many tiles to download"
      else
        let hgt := ((rect.y_max - rect.y_min + 1) * OSM_TILE_SIZE).toNat
        let wid := ((rect.x_max - rect.x_min + 1) * OSM_TILE_SIZE).toNat
        let supertile := assembleMosaic ts rect
        let pts := lat_lon_data.map (pixOf xy rect)
        let data0 := splat hgt wid pts
        let data1 := compressStage cosMeanLat rect.zoom num_activities hgt wid data0
        let data2 := gaussian_smooth data1
        match normalizeGrid hgt wid data2 with
        | none =>
          .ok fun r c ch =>
            blendChannel (chan3 (removeBackground (cmap 0) matplotlibBad) ch)
              (supertile r c ch)
        | some d => .ok (compositeImage cmap d supertile)

/-! ### Spec-side definitions, for refinement comparisons -/

/-- The dynamic-range compression as claim C7 words it: identical to
`compressStage` except that the histogram is taken over `m + 1` integer bins
(bin `k` counts the values whose integer part is `k`), the cumulative
histogram therefore being indexed directly by the value. -/
def compressStageIntBinsSpec (cosMeanLat : ℚ) (zoom : ℤ) (num_activities : ℕ)
    (hgt wid : ℕ) (g : ℕ → ℕ → ℚ) : ℕ → ℕ → ℚ :=
  let res_pixel := 156543.03 * cosMeanLat / (2:ℚ) ^ zoom
  let m := npRound (1/5 * res_pixel * (num_activities : ℚ))
  let clipped := clipGrid (m : ℚ) g
  let L := valuesList hgt wid clipped
  fun r c =>
    (m : ℚ) * ((L.filter fun v => pyInt v ≤ pyInt (clipped r c)).length : ℚ) /
      ((hgt : ℚ) * (wid : ℚ))

/-- The dynamic-range compression as amended: histogram over `m + 1`
equal-width bins spanning the clipped grid's value range (NumPy's default
binning), cumulative fraction of the pixels in bins up to the pixel's integer
value, scaled by `m`. -/
def compressStageSpecAmended (cosMeanLat : ℚ) (zoom : ℤ) (num_activities : ℕ)
    (hgt wid : ℕ) (g : ℕ → ℕ → ℚ) : ℕ → ℕ → ℚ :=
  let res_pixel := 156543.03 * cosMeanLat / (2:ℚ) ^ zoom
  let m := npRound (1/5 * res_pixel * (num_activities : ℚ))
  let clipped := clipGrid (m : ℚ) g
  let L := valuesList hgt wid clipped
  let rg := histRange (listMin L) (listMax L)
  let B := (m + 1).toNat
  fun r c =>
    (m : ℚ) *
      ((L.filter fun v => binIndex rg.1 rg.2 B v ≤ (pyInt (clipped r c)).toNat).length : ℚ) /
      ((hgt : ℚ) * (wid : ℚ))

/-- A concrete colormap used in witnesses and counterexamples: a non-constant
map whose red channel is the same at every input, so that a non-background
color shares its red channel with the background color. -/
def cmapDemo : ℚ → RGBA :=
  fun q => if q < 1/2 then ⟨1/24, 0, 0, 1⟩ else ⟨1/24, 1, 0, 1⟩

/-- A concrete all-zero tile source for witnesses. -/
def tsZero : TileSource := fun _ _ _ _ _ _ => 0

/-- A concrete constant mosaic for witnesses. -/
def mosDemo : ℕ → ℕ → Fin 3 → ℚ := fun _ _ _ => 1/3

/-! ### Concrete coordinate-map instance, used for witnesses and
counterexamples -/

/-- Modelled from the spec: a concrete coordinate-mapping collaborator
satisfying the spec's contract that `latlon_to_xy(lat, lon, zoom)` lies in
`[0, 2^zoom)` for latitudes in `(-90, 90]` and longitudes in `[-180, 180)`.
It maps longitude linearly to the x tile coordinate and latitude linearly to
the y tile coordinate (y grows southward, as in slippy-map tiling).  The real
collaborator uses the Web-Mercator formula; only the interval contract matters
to the resolver. -/
def linXY : TileXY where
  x := fun _lat lon z => (lon + 180) / 360 * ((2 ^ z.toNat : ℕ) : ℚ)
  y := fun lat _lon z => (90 - lat) / 180 * ((2 ^ z.toNat : ℕ) : ℚ)

/-! ## Helper lemmas -/

theorem pyInt_eq_zero {q : ℚ} (h0 : 0 ≤ q) (h1 : q < 1) : pyInt q = 0 := by
  unfold pyInt
  rw [if_neg (not_lt.mpr h0)]
  exact Int.floor_eq_zero_iff.mpr ⟨h0, h1⟩

/-- Behaviour of the auto-zoom loop: as soon as the break condition holds at
zoom `0`, the loop started at zoom `z` with more than `z` units of fuel stops
at the greatest zoom `≤ z` whose rectangle fits the budget. -/
theorem autoZoomLoop_spec (xy : TileXY) (a b c d : ℚ)
    (h0 : fitsBudget (tileRectAt xy a b c d 0) = true) :
    ∀ (fuel : ℕ) (z : ℤ), 0 ≤ z → z.toNat < fuel →
    ∃ r, autoZoomLoop xy a b c d fuel z = some r ∧
      0 ≤ r.zoom ∧ r.zoom ≤ z ∧ r = tileRectAt xy a b c d r.zoom ∧
      fitsBudget r = true ∧
      ∀ w, r.zoom < w → w ≤ z → fitsBudget (tileRectAt xy a b c d w) = false := by
  intro fuel
  induction fuel with
  | zero => intro z hz hlt; exact absurd hlt (by omega)
  | succ fuel ih =>
    intro z hz hlt
    by_cases hfit : fitsBudget (tileRectAt xy a b c d z) = true
    · refine ⟨tileRectAt xy a b c d z, ?_, hz, le_refl z, rfl, hfit, ?_⟩
      · simp [autoZoomLoop, hfit]
      · intro w hw hw'
        exact absurd (lt_of_lt_of_le hw hw') (lt_irrefl z)
    · have hzpos : 0 < z := by
        rcases eq_or_lt_of_le hz with h | h
        · rw [← h] at hfit; exact absurd h0 hfit
        · exact h
      obtain ⟨r, hr, h1, h2, h3, h4, h5⟩ := ih (z - 1) (by omega) (by omega)
      refine ⟨r, ?_, h1, by omega, h3, h4, ?_⟩
      · simp [autoZoomLoop, hfit, hr]
      · intro w hw hw'
        rcases eq_or_lt_of_le hw' with h | h
        · rw [h]; simpa using hfit
        · exact h5 w hw (by omega)

/-- Under the coordinate-map contract at zoom `0` (both corner coordinates in
`[0, 1)`), the zoom-`0` rectangle is a single tile and fits the budget. -/
theorem fits_at_zero (xy : TileXY) (a b c d : ℚ)
    (hx1 : 0 ≤ xy.x a b 0) (hx1' : xy.x a b 0 < 1)
    (hy1 : 0 ≤ xy.y a b 0) (hy1' : xy.y a b 0 < 1)
    (hx2 : 0 ≤ xy.x c d 0) (hx2' : xy.x c d 0 < 1)
    (hy2 : 0 ≤ xy.y c d 0) (hy2' : xy.y c d 0 < 1) :
    fitsBudget (tileRectAt xy a b c d 0) = true := by
  simp [fitsBudget, tileRectAt, pyInt_eq_zero hx1 hx1', pyInt_eq_zero hy1 hy1',
    pyInt_eq_zero hx2 hx2', pyInt_eq_zero hy2 hy2', OSM_TILE_SIZE, MAX_HEATMAP_SIZE]

theorem foldl_min_le_init (l : List ℚ) : ∀ x : ℚ, l.foldl min x ≤ x := by
  induction l with
  | nil => intro x; simp
  | cons a l ih =>
    intro x
    simpa using le_trans (ih (min x a)) (min_le_left x a)

theorem foldl_min_le_mem (l : List ℚ) :
    ∀ (x y : ℚ), y ∈ l → l.foldl min x ≤ y := by
  induction l with
  | nil => intro x y hy; exact absurd hy (List.not_mem_nil y)
  | cons a l ih =>
    intro x y hy
    rcases List.mem_cons.mp hy with h | h
    · subst h
      simpa using le_trans (foldl_min_le_init l (min x y)) (min_le_right x y)
    · simpa using ih (min x a) y h

theorem foldl_min_mem (l : List ℚ) :
    ∀ x : ℚ, l.foldl min x = x ∨ l.foldl min x ∈ l := by
  induction l with
  | nil => intro x; simp
  | cons a l ih =>
    intro x
    rcases ih (min x a) with h | h
    · rcases min_choice x a with h' | h'
      · left; simpa [h'] using h
      · right; rw [List.mem_cons]; left; simpa [h'] using h
    · right; rw [List.mem_cons]; right; simpa using h

theorem foldl_max_init_le (l : List ℚ) : ∀ x : ℚ, x ≤ l.foldl max x := by
  induction l with
  | nil => intro x; simp
  | cons a l ih =>
    intro x
    simpa using le_trans (le_max_left x a) (ih (max x a))

theorem foldl_max_mem_le (l : List ℚ) :
    ∀ (x y : ℚ), y ∈ l → y ≤ l.foldl max x := by
  induction l with
  | nil => intro x y hy; exact absurd hy (List.not_mem_nil y)
  | cons a l ih =>
    intro x y hy
    rcases List.mem_cons.mp hy with h | h
    · subst h
      simpa using le_trans (le_max_right x y) (foldl_max_init_le l (max x y))
    · simpa using ih (max x a) y h

theorem foldl_max_mem (l : List ℚ) :
    ∀ x : ℚ, l.foldl max x = x ∨ l.foldl max x ∈ l := by
  induction l with
  | nil => intro x; simp
  | cons a l ih =>
    intro x
    rcases ih (max x a) with h | h
    · rcases max_choice x a with h' | h'
      · left; simpa [h'] using h
      · right; rw [List.mem_cons]; left; simpa [h'] using h
    · right; rw [List.mem_cons]; right; simpa using h

theorem listMin_le (L : List ℚ) (v : ℚ) (hv : v ∈ L) : listMin L ≤ v := by
  cases L with
  | nil => exact absurd hv (List.not_mem_nil v)
  | cons a l =>
    rcases List.mem_cons.mp hv with h | h
    · subst h; exact foldl_min_le_init l v
    · exact foldl_min_le_mem l a v h

theorem listMin_mem (L : List ℚ) (h : L ≠ []) : listMin L ∈ L := by
  cases L with
  | nil => exact absurd rfl h
  | cons a l =>
    rcases foldl_min_mem l a with h' | h'
    · rw [List.mem_cons]; left; exact h'
    · rw [List.mem_cons]; right; exact h'

theorem le_listMax (L : List ℚ) (v : ℚ) (hv : v ∈ L) : v ≤ listMax L := by
  cases L with
  | nil => exact absurd hv (List.not_mem_nil v)
  | cons a l =>
    rcases List.mem_cons.mp hv with h | h
    · subst h; exact foldl_max_init_le l v
    · exact foldl_max_mem_le l a v h

theorem listMax_mem (L : List ℚ) (h : L ≠ []) : listMax L ∈ L := by
  cases L with
  | nil => exact absurd rfl h
  | cons a l =>
    rcases foldl_max_mem l a with h' | h'
    · rw [List.mem_cons]; left; exact h'
    · rw [List.mem_cons]; right; exact h'

theorem mem_valuesList {hgt wid : ℕ} {g : ℕ → ℕ → ℚ} {v : ℚ} :
    v ∈ valuesList hgt wid g ↔ ∃ r, r < hgt ∧ ∃ c, c < wid ∧ g r c = v := by
  simp [valuesList]

theorem valuesList_map (hgt wid : ℕ) (g : ℕ → ℕ → ℚ) (f : ℚ → ℚ) :
    valuesList hgt wid (fun r c => f (g r c)) = (valuesList hgt wid g).map f := by
  simp [valuesList, List.map_flatMap, List.map_map, Function.comp_def]

/-! ## Claim theorems -/

/-- C1, counterexample to the claim as stated.  With the spec-modelled linear
coordinate map and bounds `lat ∈ [0, 84.375]`, `lon ∈ [0, 0.001]`, auto mode
resolves to zoom 4 with a 1-tile-wide, 9-tile-high rectangle, whose pixel
height `9 * 256 = 2304` exceeds `2160`: the resulting mosaic pixel dimensions
do not stay within `(3840, 2160)`, because the code bounds the width by
`MAX_HEATMAP_SIZE[0] = 2160` and the height by `MAX_HEATMAP_SIZE[1] = 3840`,
not the other way around. -/
theorem C1_counterexample :
    resolveTiles linXY 0 0 (675/8) (1/1000) (-1) =
      some { zoom := 4, x_min := 8, x_max := 8, y_min := 0, y_max := 8 } ∧
    2160 <
      (({ zoom := 4, x_min := 8, x_max := 8, y_min := 0, y_max := 8 } : TileRect).y_max -
        ({ zoom := 4, x_min := 8, x_max := 8, y_min := 0, y_max := 8 } : TileRect).y_min + 1) *
        OSM_TILE_SIZE := by
  refine ⟨by with_unfolding_all decide, by decide⟩

/-- C1, amended: in auto mode the resolver starts at zoom 19 and decrements,
stopping at the first (highest) zoom at which the tile rectangle's pixel
width is at most `MAX_HEATMAP_SIZE[0] = 2160` and its pixel height is at most
`MAX_HEATMAP_SIZE[1] = 3840`; therefore the resulting mosaic pixel width
stays within 2160 and its height within 3840.  Hypotheses: the coordinate-map
contract at zoom 0 for the two corner points. -/
theorem C1_amended_theorem (xy : TileXY) (lat_min lon_min lat_max lon_max : ℚ)
    (hx1 : 0 ≤ xy.x lat_min lon_min 0) (hx1' : xy.x lat_min lon_min 0 < 1)
    (hy1 : 0 ≤ xy.y lat_min lon_min 0) (hy1' : xy.y lat_min lon_min 0 < 1)
    (hx2 : 0 ≤ xy.x lat_max lon_max 0) (hx2' : xy.x lat_max lon_max 0 < 1)
    (hy2 : 0 ≤ xy.y lat_max lon_max 0) (hy2' : xy.y lat_max lon_max 0 < 1) :
    ∃ r, resolveTiles xy lat_min lon_min lat_max lon_max (-1) = some r ∧
      (r.x_max - r.x_min + 1) * OSM_TILE_SIZE ≤ MAX_HEATMAP_SIZE.1 ∧
      (r.y_max - r.y_min + 1) * OSM_TILE_SIZE ≤ MAX_HEATMAP_SIZE.2 ∧
      0 ≤ r.zoom ∧ r.zoom ≤ OSM_MAX_ZOOM ∧
      ∀ w, r.zoom < w → w ≤ OSM_MAX_ZOOM →
        fitsBudget (tileRectAt xy lat_min lon_min lat_max lon_max w) = false := by
  have h0 := fits_at_zero xy lat_min lon_min lat_max lon_max
    hx1 hx1' hy1 hy1' hx2 hx2' hy2 hy2'
  obtain ⟨r, hr, hz0, hz19, _, hfits, hmax⟩ :=
    autoZoomLoop_spec xy lat_min lon_min lat_max lon_max h0 20 19 (by norm_num)
      (by norm_num)
  have hb := hfits
  simp only [fitsBudget, Bool.and_eq_true, decide_eq_true_eq] at hb
  refine ⟨r, ?_, hb.1, hb.2, hz0, hz19, hmax⟩
  simpa [resolveTiles, OSM_MAX_ZOOM] using hr

/-- C1, witness for the amended theorem at the concrete linear coordinate map
and bounds of the counterexample. -/
theorem C1_witness :
    ∃ r, resolveTiles linXY 0 0 (675/8) (1/1000) (-1) = some r ∧
      (r.x_max - r.x_min + 1) * OSM_TILE_SIZE ≤ MAX_HEATMAP_SIZE.1 ∧
      (r.y_max - r.y_min + 1) * OSM_TILE_SIZE ≤ MAX_HEATMAP_SIZE.2 ∧
      0 ≤ r.zoom ∧ r.zoom ≤ OSM_MAX_ZOOM ∧
      ∀ w, r.zoom < w → w ≤ OSM_MAX_ZOOM →
        fitsBudget (tileRectAt linXY 0 0 (675/8) (1/1000) w) = false :=
  C1_amended_theorem linXY 0 0 (675/8) (1/1000)
    (by with_unfolding_all decide) (by with_unfolding_all decide)
    (by with_unfolding_all decide) (by with_unfolding_all decide)
    (by with_unfolding_all decide) (by with_unfolding_all decide)
    (by with_unfolding_all decide) (by with_unfolding_all decide)

/-- C9: under the coordinate-map contract at zoom 0, the auto-zoom loop
(fuel 20, i.e. zooms 19 down to 0) terminates with a rectangle whose zoom is
at least 0 and which satisfies both axis constraints. -/
theorem C9_theorem (xy : TileXY) (lat_min lon_min lat_max lon_max : ℚ)
    (hx1 : 0 ≤ xy.x lat_min lon_min 0) (hx1' : xy.x lat_min lon_min 0 < 1)
    (hy1 : 0 ≤ xy.y lat_min lon_min 0) (hy1' : xy.y lat_min lon_min 0 < 1)
    (hx2 : 0 ≤ xy.x lat_max lon_max 0) (hx2' : xy.x lat_max lon_max 0 < 1)
    (hy2 : 0 ≤ xy.y lat_max lon_max 0) (hy2' : xy.y lat_max lon_max 0 < 1) :
    ∃ r, autoZoomLoop xy lat_min lon_min lat_max lon_max 20 OSM_MAX_ZOOM = some r ∧
      0 ≤ r.zoom ∧ fitsBudget r = true := by
  have h0 := fits_at_zero xy lat_min lon_min lat_max lon_max
    hx1 hx1' hy1 hy1' hx2 hx2' hy2 hy2'
  obtain ⟨r, hr, hz0, _, _, hfits, _⟩ :=
    autoZoomLoop_spec xy lat_min lon_min lat_max lon_max h0 20 19 (by norm_num)
      (by norm_num)
  exact ⟨r, by simpa [OSM_MAX_ZOOM] using hr, hz0, hfits⟩

/-- C9, witness at the concrete linear coordinate map. -/
theorem C9_witness :
    ∃ r, autoZoomLoop linXY 0 0 (675/8) (1/1000) 20 OSM_MAX_ZOOM = some r ∧
      0 ≤ r.zoom ∧ fitsBudget r = true :=
  C9_theorem linXY 0 0 (675/8) (1/1000)
    (by with_unfolding_all decide) (by with_unfolding_all decide)
    (by with_unfolding_all decide) (by with_unfolding_all decide)
    (by with_unfolding_all decide) (by with_unfolding_all decide)
    (by with_unfolding_all decide) (by with_unfolding_all decide)

/-- C2: whatever the path that produced the resolved rectangle (requested
zoom or auto zoom), if its tile count exceeds `MAX_TILE_COUNT = 2000` the
render fails with the fatal error, for every tile source (so no tile is
consulted and no output is produced); otherwise rendering proceeds to a
result. -/
theorem C2_theorem (xy : TileXY) (cmap : ℚ → RGBA) (ts : TileSource)
    (sm : (ℕ → ℕ → ℚ) → (ℕ → ℕ → ℚ)) (pts : List (ℚ × ℚ)) (cosl : ℚ)
    (n : ℕ) (z : ℤ) (b : PointBounds) (rect : TileRect)
    (hb : boundsOfPoints pts = some b)
    (hr : resolveTiles xy b.lat_min b.lon_min b.lat_max b.lon_max z = some rect) :
    (MAX_TILE_COUNT < tileCount rect →
      render_heatmap xy cmap ts sm pts cosl n z =
        .error "ERROR zoom value too high, too many tiles to download") ∧
    (tileCount rect ≤ MAX_TILE_COUNT →
      ∃ img, render_heatmap xy cmap ts sm pts cosl n z = .ok img) := by
  constructor
  · intro h
    simp only [render_heatmap, hb, hr]
    rw [if_pos h]
  · intro h
    simp only [render_heatmap, hb, hr]
    rw [if_neg (not_lt.mpr h)]
    split
    · exact ⟨_, rfl⟩
    · exact ⟨_, rfl⟩

/-- C2, witness: a forced zoom of 10 over bounds spanning most of a hemisphere
yields 221188 tiles, and the render fails with the fatal tile-count error. -/
theorem C2_witness :
    render_heatmap linXY cmapDemo tsZero (fun g => g)
      [((0:ℚ), (0:ℚ)), (80, 170)] 1 1 10 =
      .error "ERROR zoom value too high, too many tiles to download" :=
  (C2_theorem linXY cmapDemo tsZero (fun g => g) [((0:ℚ), (0:ℚ)), (80, 170)]
    1 1 10 ⟨0, 0, 80, 170⟩ (tileRectAt linXY 0 0 80 170 10)
    (by with_unfolding_all decide) (by with_unfolding_all decide)).1
    (by with_unfolding_all decide)

/-- C3: evaluation of the code at the failing inputs.  An empty point set
makes `np.min(lat_lon_data, axis=0)` raise `ValueError` (the render crashes
instead of falling back), and a density grid with no variation makes the
normalization `(data - min) / (max - min)` divide zero by zero, producing NaN
(`none`) instead of a defined all-zero fallback. -/
theorem C3_failing_evaluation :
    render_heatmap linXY cmapDemo tsZero (fun g => g) [] 1 1 10 =
      .error "ValueError: zero-size array to reduction operation minimum" ∧
    normalizeGrid 1 2 (fun _ _ => 7) = none := by
  exact ⟨by with_unfolding_all rfl, by with_unfolding_all rfl⟩

/-- C4: for every non-degenerate density grid (maximum strictly greater than
minimum before normalization), the normalization `(x - min) / (max - min)`
succeeds and yields a grid with minimum 0, maximum 1, and every entry in
`[0, 1]`. -/
theorem C4_theorem (hgt wid : ℕ) (g : ℕ → ℕ → ℚ) (hh : 0 < hgt) (hw : 0 < wid)
    (hlt : listMin (valuesList hgt wid g) < listMax (valuesList hgt wid g)) :
    ∃ g', normalizeGrid hgt wid g = some g' ∧
      listMin (valuesList hgt wid g') = 0 ∧
      listMax (valuesList hgt wid g') = 1 ∧
      ∀ r c, r < hgt → c < wid → 0 ≤ g' r c ∧ g' r c ≤ 1 := by
  have hpos : 0 < listMax (valuesList hgt wid g) - listMin (valuesList hgt wid g) :=
    sub_pos.mpr hlt
  have hden : listMax (valuesList hgt wid g) - listMin (valuesList hgt wid g) ≠ 0 :=
    ne_of_gt hpos
  have hmem00 : g 0 0 ∈ valuesList hgt wid g :=
    mem_valuesList.mpr ⟨0, hh, 0, hw, rfl⟩
  have hne : valuesList hgt wid g ≠ [] := by
    intro h; rw [h] at hmem00; exact absurd hmem00 (List.not_mem_nil _)
  have hloMem := listMin_mem _ hne
  have hhiMem := listMax_mem _ hne
  refine ⟨fun r c =>
    (g r c - listMin (valuesList hgt wid g)) /
      (listMax (valuesList hgt wid g) - listMin (valuesList hgt wid g)),
    ?_, ?_, ?_, ?_⟩
  · simp only [normalizeGrid]
    rw [if_neg hden]
  · have hmap := valuesList_map hgt wid g
      (fun v => (v - listMin (valuesList hgt wid g)) /
        (listMax (valuesList hgt wid g) - listMin (valuesList hgt wid g)))
    rw [hmap]
    have hne' : (valuesList hgt wid g).map
        (fun v => (v - listMin (valuesList hgt wid g)) /
          (listMax (valuesList hgt wid g) - listMin (valuesList hgt wid g))) ≠ [] := by
      simpa using hne
    apply le_antisymm
    · calc listMin _ ≤ (listMin (valuesList hgt wid g) - listMin (valuesList hgt wid g)) /
            (listMax (valuesList hgt wid g) - listMin (valuesList hgt wid g)) :=
            listMin_le _ _ (List.mem_map.mpr ⟨_, hloMem, rfl⟩)
        _ = 0 := by rw [sub_self]; exact zero_div _
    · obtain ⟨v, hv, hveq⟩ := List.mem_map.mp (listMin_mem _ hne')
      rw [← hveq]
      exact div_nonneg (sub_nonneg.mpr (listMin_le _ _ hv)) hpos.le
  · have hmap := valuesList_map hgt wid g
      (fun v => (v - listMin (valuesList hgt wid g)) /
        (listMax (valuesList hgt wid g) - listMin (valuesList hgt wid g)))
    rw [hmap]
    have hne' : (valuesList hgt wid g).map
        (fun v => (v - listMin (valuesList hgt wid g)) /
          (listMax (valuesList hgt wid g) - listMin (valuesList hgt wid g))) ≠ [] := by
      simpa using hne
    apply le_antisymm
    · obtain ⟨v, hv, hveq⟩ := List.mem_map.mp (listMax_mem _ hne')
      rw [← hveq]
      rw [div_le_one hpos]
      have := le_listMax _ _ hv
      linarith
    · calc (1:ℚ) = (listMax (valuesList hgt wid g) - listMin (valuesList hgt wid g)) /
            (listMax (valuesList hgt wid g) - listMin (valuesList hgt wid g)) :=
            (div_self hden).symm
        _ ≤ _ := le_listMax _ _ (List.mem_map.mpr ⟨_, hhiMem, rfl⟩)
  · intro r c hr hc
    have hmem : g r c ∈ valuesList hgt wid g := mem_valuesList.mpr ⟨r, hr, c, hc, rfl⟩
    have h1 := listMin_le _ _ hmem
    have h2 := le_listMax _ _ hmem
    constructor
    · exact div_nonneg (by linarith) hpos.le
    · rw [div_le_one hpos]; linarith

/-- C4, witness at the concrete 1-by-2 grid with values 0 and 1. -/
theorem C4_witness :
    ∃ g', normalizeGrid 1 2 (fun _ c => (c : ℚ)) = some g' ∧
      listMin (valuesList 1 2 g') = 0 ∧
      listMax (valuesList 1 2 g') = 1 ∧
      ∀ r c, r < 1 → c < 2 → 0 ≤ g' r c ∧ g' r c ≤ 1 :=
  C4_theorem 1 2 (fun _ c => (c : ℚ)) (by norm_num) (by norm_num)
    (by with_unfolding_all decide)

/-! Splat window characterization -/

theorem splat_foldl (hgt wid : ℕ) (ps : List (ℤ × ℤ)) :
    ∀ (g : ℕ → ℕ → ℚ) (r c : ℕ),
      (ps.foldl (splatPoint hgt wid) g) r c =
        g r c + ((ps.filter fun p =>
          inSlice (p.2 - 1) (p.2 + 1) hgt r &&
            inSlice (p.1 - 1) (p.1 + 1) wid c).length : ℚ) := by
  induction ps with
  | nil => intro g r c; simp
  | cons p ps ih =>
    intro g r c
    rw [List.foldl_cons, ih]
    rcases Bool.eq_false_or_eq_true (inSlice (p.2 - 1) (p.2 + 1) hgt r &&
        inSlice (p.1 - 1) (p.1 + 1) wid c) with hp | hp
    · simp [List.filter_cons, hp, splatPoint]
      ring
    · simp [List.filter_cons, hp, splatPoint]

theorem inSlice_window {n : ℕ} {i : ℤ} (h1 : 1 ≤ i) (h2 : i < (n:ℤ)) (k : ℕ) :
    inSlice (i - 1) (i + 1) n k = true ↔ ((k:ℤ) = i - 1 ∨ (k:ℤ) = i) := by
  unfold inSlice pyBound
  rw [if_neg (by omega : ¬(i - 1 < 0)), if_neg (by omega : ¬(i + 1 < 0))]
  simp only [Bool.and_eq_true, decide_eq_true_eq]
  omega

/-- C6: when every splatted point's rounded pixel `(column j, row i)` lies in
the in-range region `1 ≤ i < hgt`, `1 ≤ j < wid`, the density grid value at
any pixel equals the number of points whose `2x2` splat square (rows
`i-1, i`, columns `j-1, j`, i.e. the `(2*sigma) x (2*sigma)` square at the
point's pixel with `sigma = 1`) contains that pixel: each point increments
every pixel of its square by exactly `1.0`, and overlapping squares accumulate
additively. -/
theorem C6_theorem (hgt wid : ℕ) (ps : List (ℤ × ℤ))
    (hps : ∀ p ∈ ps, 1 ≤ p.2 ∧ p.2 < (hgt:ℤ) ∧ 1 ≤ p.1 ∧ p.1 < (wid:ℤ))
    (r c : ℕ) :
    splat hgt wid ps r c =
      ((ps.filter fun p =>
        decide ((((r:ℤ) = p.2 - 1 ∨ (r:ℤ) = p.2)) ∧
          (((c:ℤ) = p.1 - 1 ∨ (c:ℤ) = p.1)))).length : ℚ) := by
  have hfc : ∀ p ∈ ps,
      (inSlice (p.2 - 1) (p.2 + 1) hgt r && inSlice (p.1 - 1) (p.1 + 1) wid c) =
        decide ((((r:ℤ) = p.2 - 1 ∨ (r:ℤ) = p.2)) ∧
          (((c:ℤ) = p.1 - 1 ∨ (c:ℤ) = p.1))) := by
    intro p hp
    obtain ⟨ha, hb, hc', hd⟩ := hps p hp
    have hrow := inSlice_window ha hb r
    have hcol := inSlice_window hc' hd c
    by_cases h : (inSlice (p.2 - 1) (p.2 + 1) hgt r &&
        inSlice (p.1 - 1) (p.1 + 1) wid c) = true
    · rw [h]
      symm
      rw [decide_eq_true_eq]
      rw [Bool.and_eq_true] at h
      exact ⟨hrow.mp h.1, hcol.mp h.2⟩
    · have h' : (inSlice (p.2 - 1) (p.2 + 1) hgt r &&
          inSlice (p.1 - 1) (p.1 + 1) wid c) = false := by simpa using h
      rw [h']
      symm
      rw [decide_eq_false_iff_not]
      intro hxy
      obtain ⟨hx, hy⟩ := hxy
      rw [Bool.and_eq_false_iff] at h'
      rcases h' with h' | h'
      · exact absurd (hrow.mpr hx) (by simp [h'])
      · exact absurd (hcol.mpr hy) (by simp [h'])
  unfold splat
  rw [splat_foldl, List.filter_congr hfc]
  simp

/-- C6, witness: two overlapping points on a 4x4 grid both cover pixel
`(1, 1)`, which accumulates the value 2. -/
theorem C6_witness :
    splat 4 4 [((1:ℤ), (1:ℤ)), (2, 2)] 1 1 = 2 := by
  rw [C6_theorem 4 4 [((1:ℤ), (1:ℤ)), (2, 2)] (by decide) 1 1]
  with_unfolding_all decide

/-- Splat condition in terms of normalized slice bounds. -/
theorem splatPoint_eq (hgt wid : ℕ) (g : ℕ → ℕ → ℚ) (p : ℤ × ℤ) (r c : ℕ) :
    splatPoint hgt wid g p r c =
      if pyBound (p.2 - 1) hgt ≤ r ∧ r < pyBound (p.2 + 1) hgt ∧
          pyBound (p.1 - 1) wid ≤ c ∧ c < pyBound (p.1 + 1) wid
      then g r c + 1 else g r c := by
  simp only [splatPoint, inSlice, Bool.and_eq_true, decide_eq_true_eq, and_assoc]

/-- C10: with `sigma = 1`, a point whose rounded row or column index is 0 has
an empty splat window under Python's negative-start slicing (so it contributes
nothing to the density grid); a point at or beyond the bottom grid edge gets a
window truncated to the last row rather than an error; and splatting any point
leaves every pixel either unchanged or incremented by exactly one (total, no
failure). -/
theorem C10_theorem (hgt wid : ℕ) (g : ℕ → ℕ → ℚ) (p : ℤ × ℤ)
    (hh : 2 ≤ hgt) (hw : 2 ≤ wid) :
    ((p.2 = 0 ∨ p.1 = 0) → splatPoint hgt wid g p = g) ∧
    ((hgt:ℤ) ≤ p.2 → ∀ r c, splatPoint hgt wid g p r c ≠ g r c → r = hgt - 1) ∧
    (∀ r c, splatPoint hgt wid g p r c = g r c ∨
      splatPoint hgt wid g p r c = g r c + 1) := by
  refine ⟨?_, ?_, ?_⟩
  · intro h0
    funext r c
    rw [splatPoint_eq]
    rw [if_neg ?_]
    rintro ⟨ha, hb, hc', hd⟩
    rcases h0 with h | h
    · rw [h] at ha hb
      have e1 : pyBound (0 - 1 : ℤ) hgt = hgt - 1 := by
        unfold pyBound; rw [if_pos (by norm_num)]; omega
      have e2 : pyBound (0 + 1 : ℤ) hgt = 1 := by
        unfold pyBound; rw [if_neg (by norm_num)]
        have : ((0:ℤ) + 1).toNat = 1 := rfl
        omega
      rw [e1] at ha; rw [e2] at hb; omega
    · rw [h] at hc' hd
      have e1 : pyBound (0 - 1 : ℤ) wid = wid - 1 := by
        unfold pyBound; rw [if_pos (by norm_num)]; omega
      have e2 : pyBound (0 + 1 : ℤ) wid = 1 := by
        unfold pyBound; rw [if_neg (by norm_num)]
        have : ((0:ℤ) + 1).toNat = 1 := rfl
        omega
      rw [e1] at hc'; rw [e2] at hd; omega
  · intro hge r c hne
    rw [splatPoint_eq] at hne
    by_cases hcond : pyBound (p.2 - 1) hgt ≤ r ∧ r < pyBound (p.2 + 1) hgt ∧
        pyBound (p.1 - 1) wid ≤ c ∧ c < pyBound (p.1 + 1) wid
    · obtain ⟨ha, hb, -, -⟩ := hcond
      have e1 : pyBound (p.2 - 1) hgt = min (p.2 - 1).toNat hgt := by
        unfold pyBound; rw [if_neg (by omega)]
      have e2 : pyBound (p.2 + 1) hgt = min (p.2 + 1).toNat hgt := by
        unfold pyBound; rw [if_neg (by omega)]
      rw [e1] at ha; rw [e2] at hb
      omega
    · rw [if_neg hcond] at hne
      exact absurd rfl hne
  · intro r c
    rw [splatPoint_eq]
    split_ifs
    · exact Or.inr rfl
    · exact Or.inl rfl

/-- C10, witness: a point whose row index is 0 (at any column) leaves a 4x4
grid unchanged. -/
theorem C10_witness :
    splatPoint 4 4 (fun _ _ => (0:ℚ)) (3, 0) = fun _ _ => (0:ℚ) :=
  (C10_theorem 4 4 (fun _ _ => (0:ℚ)) (3, 0) (by norm_num) (by norm_num)).1
    (Or.inl rfl)

/-- C5, counterexample to the claim as stated.  With the concrete colormap
`cmapDemo`, the color at input 1 differs from the background color
`cmapDemo 0`, yet the background-removal mask still zeroes two of its
channels (red, which coincides with the background's red, and alpha): the set
of pixels whose color is modified is not exactly the set of pixels whose
color equals the background color, because the NumPy mask compares channel by
channel. -/
theorem C5_counterexample :
    removeBackground (cmapDemo 0) (cmapDemo 1) = ⟨0, 1, 0, 0⟩ ∧
    cmapDemo 1 ≠ cmapDemo 0 ∧
    removeBackground (cmapDemo 0) (cmapDemo 1) ≠ cmapDemo 1 := by
  with_unfolding_all decide

/-- C5, amended: the background masking operates per channel — exactly the
individual channel entries equal to the corresponding channel of the
colormap's color at input 0.0 are zeroed — and consequently every pixel with
normalized density 0.0 (whose full color equals the background) has all its
channels zeroed and produces an output pixel identical to the corresponding
mosaic pixel in all three channels. -/
theorem C5_amended_theorem (cmap : ℚ → RGBA) (density : ℕ → ℕ → ℚ)
    (mosaic : ℕ → ℕ → Fin 3 → ℚ) (r c : ℕ) :
    (∀ ch : Fin 3,
      chan3 (removeBackground (cmap 0) (cmap (density r c))) ch =
        if chan3 (cmap (density r c)) ch = chan3 (cmap 0) ch then 0
        else chan3 (cmap (density r c)) ch) ∧
    (density r c = 0 →
      ∀ ch : Fin 3, compositeImage cmap density mosaic r c ch = mosaic r c ch) := by
  constructor
  · intro ch
    fin_cases ch <;> rfl
  · intro h0 ch
    fin_cases ch <;>
      simp [compositeImage, h0, removeBackground, zeroIfEq, blendChannel, chan3]

/-- C5, witness: with the concrete colormap and an all-zero density, the
composite at pixel (0,0) equals the mosaic. -/
theorem C5_witness :
    compositeImage cmapDemo (fun _ _ => 0) mosDemo 0 0 0 = mosDemo 0 0 0 :=
  (C5_amended_theorem cmapDemo (fun _ _ => 0) mosDemo 0 0).2 rfl 0

/-- Each channel of the background-removed color stays in `[0, 1]` when the
original color's channels are in `[0, 1]`. -/
theorem zeroIfEq_in01 {v bg : ℚ} (h0 : 0 ≤ v) (h1 : v ≤ 1) :
    0 ≤ zeroIfEq v bg ∧ zeroIfEq v bg ≤ 1 := by
  unfold zeroIfEq
  split_ifs
  · exact ⟨le_refl 0, by norm_num⟩
  · exact ⟨h0, h1⟩

theorem removeBackground_chan_in01 (bg : RGBA) {col : RGBA} (h : rgbaIn01 col)
    (ch : Fin 3) :
    0 ≤ chan3 (removeBackground bg col) ch ∧
      chan3 (removeBackground bg col) ch ≤ 1 := by
  obtain ⟨⟨hr0, hr1⟩, ⟨hg0, hg1⟩, ⟨hb0, hb1⟩, -⟩ := h
  fin_cases ch
  · exact zeroIfEq_in01 hr0 hr1
  · exact zeroIfEq_in01 hg0 hg1
  · exact zeroIfEq_in01 hb0 hb1

/-- C8: the compositor computes
`result[c] = (1 - color[c]) * mosaic[c] + color[c]` on each of the three RGB
channels (with `color` the background-removed colormap output), and whenever
all colormap values and the mosaic value lie in `[0, 1]` the output value
lies in `[0, 1]`. -/
theorem C8_theorem (cmap : ℚ → RGBA) (density : ℕ → ℕ → ℚ)
    (mosaic : ℕ → ℕ → Fin 3 → ℚ) (r c : ℕ) (ch : Fin 3) :
    compositeImage cmap density mosaic r c ch =
      (1 - chan3 (removeBackground (cmap 0) (cmap (density r c))) ch) *
          mosaic r c ch +
        chan3 (removeBackground (cmap 0) (cmap (density r c))) ch ∧
    ((∀ q, rgbaIn01 (cmap q)) → 0 ≤ mosaic r c ch → mosaic r c ch ≤ 1 →
      0 ≤ compositeImage cmap density mosaic r c ch ∧
        compositeImage cmap density mosaic r c ch ≤ 1) := by
  constructor
  · rfl
  · intro hc hm0 hm1
    obtain ⟨ha0, ha1⟩ := removeBackground_chan_in01 (cmap 0) (hc (density r c)) ch
    unfold compositeImage blendChannel
    have h1 : 0 ≤ (1 - chan3 (removeBackground (cmap 0) (cmap (density r c))) ch) *
        mosaic r c ch := mul_nonneg (by linarith) hm0
    have h2 : (1 - chan3 (removeBackground (cmap 0) (cmap (density r c))) ch) *
        mosaic r c ch ≤
        1 - chan3 (removeBackground (cmap 0) (cmap (density r c))) ch :=
      mul_le_of_le_one_right (by linarith) hm1
    constructor <;> linarith

/-- C8, witness: a concrete composite value stays within `[0, 1]`. -/
theorem C8_witness :
    0 ≤ compositeImage cmapDemo (fun _ _ => 3/4) mosDemo 0 0 1 ∧
      compositeImage cmapDemo (fun _ _ => 3/4) mosDemo 0 0 1 ≤ 1 :=
  (C8_theorem cmapDemo (fun _ _ => 3/4) mosDemo 0 0 1).2
    (fun q => by
      simp only [cmapDemo]
      split_ifs <;>
        exact ⟨⟨by norm_num, by norm_num⟩, ⟨by norm_num, by norm_num⟩,
          ⟨by norm_num, by norm_num⟩, ⟨by norm_num, by norm_num⟩⟩)
    (by norm_num [mosDemo]) (by norm_num [mosDemo])

/-! Cumulative histogram characterization -/

theorem length_filter_le_succ (L : List ℚ) (f : ℚ → ℕ) (k : ℕ) :
    (L.filter fun v => decide (f v ≤ k + 1)).length =
      (L.filter fun v => decide (f v ≤ k)).length +
        (L.filter fun v => f v == k + 1).length := by
  induction L with
  | nil => simp
  | cons a L ih =>
    by_cases h1 : f a ≤ k
    · have h2 : f a ≤ k + 1 := by omega
      have h3 : (f a == k + 1) = false := by
        simp only [beq_eq_false_iff_ne, ne_eq]
        omega
      simp [List.filter_cons, h1, h2, h3, ih]
      omega
    · by_cases h2 : f a = k + 1
      · have h3 : f a ≤ k + 1 := by omega
        simp [List.filter_cons, h1, h2, h3, ih]
        omega
      · have h3 : ¬(f a ≤ k + 1) := by omega
        simp [List.filter_cons, h1, h2, h3, ih]

theorem cumHist_succ (L : List ℚ) (lo hi : ℚ) (B : ℕ) (k : ℕ) :
    cumHist L lo hi B (k + 1) = cumHist L lo hi B k + histCount L lo hi B (k + 1) := by
  simp [cumHist, List.range_succ]
  omega

/-- np.cumsum of the per-bin histogram counts, at index `k`, counts the
values that fall in bins `0..k`. -/
theorem cumHist_eq_count (L : List ℚ) (lo hi : ℚ) (B : ℕ) :
    ∀ k, cumHist L lo hi B k =
      (L.filter fun v => decide (binIndex lo hi B v ≤ k)).length := by
  intro k
  induction k with
  | zero =>
    simp only [cumHist, histCount]
    rw [List.range_succ]
    simp only [List.range_zero, List.nil_append, List.map_cons, List.map_nil,
      List.sum_cons, List.sum_nil, add_zero]
    simp only [histCount]
    congr 1
    apply List.filter_congr
    intro v _
    by_cases hbv : binIndex lo hi B v = 0
    · simp [hbv]
    · simp [hbv, Nat.le_zero]
  | succ k ih =>
    rw [cumHist_succ, ih, length_filter_le_succ L (binIndex lo hi B) k]
    rfl

/-- C7, counterexample to the claim as stated.  On a 1-by-2 grid with values
0 and 1 and parameters making `m = 2`, the code's histogram equalization
(NumPy's `np.histogram` with `m + 1` equal-width bins over the data's value
range) remaps the value 1 to `2 * (1/2) = 1`, while the claim's "`m + 1`
integer bins" histogram would remap it to `2 * (2/2) = 2`. -/
theorem C7_counterexample :
    compressStage (1000/15654303) 0 1 1 2 (fun _ c => (c : ℚ)) 0 1 ≠
      compressStageIntBinsSpec (1000/15654303) 0 1 1 2 (fun _ c => (c : ℚ)) 0 1 := by
  with_unfolding_all decide

/-- C7, amended: the dynamic-range compression computes
`m = round((1/5) * res_pixel * activity_count)` with
`res_pixel = 156543.03 * cos(radians(mean_latitude)) / 2^zoom`, clips every
grid value to at most `m`, builds a histogram of the clipped grid over `m + 1`
equal-width bins spanning the clipped grid's value range (NumPy's default
binning — these coincide with integer bins only when the clipped minimum is 0
and the maximum is `m`), normalizes its cumulative sum by the total pixel
count, and remaps every pixel value `v` to `m * cumulative_histogram[int(v)]`:
the cumulative entry is the fraction of pixels in bins up to `int(v)`. -/
theorem C7_amended_theorem (cosMeanLat : ℚ) (zoom : ℤ) (n hgt wid : ℕ)
    (g : ℕ → ℕ → ℚ) (r c : ℕ) :
    compressStage cosMeanLat zoom n hgt wid g r c =
      compressStageSpecAmended cosMeanLat zoom n hgt wid g r c := by
  simp only [compressStage, compressStageSpecAmended, equalizeGrid]
  rw [cumHist_eq_count]

end Heatmap
